import Mathlib

/-!
# Verification of the mol* tokenizer, color scale and cooperative task core

A shallow embedding of the tokenizer (`Tokenizer`, `TokenBuilder`,
`readLines`, `readLinesAsync`), the `ColorScale` utility and the
cooperative task framework (`Task` / `Run` / `chunkedSubtask`) of the
repository, together with proofs of the stated properties.

Conventions of the embedding:
* A JS string is a list of UTF-16 code units, `List Nat`;
  `data.charCodeAt(i)` is `data.get? i` (out-of-range reads give `none`,
  mirroring `NaN`, which compares unequal to every code).
* A `Uint32Array` is an `Array Nat` of fixed size whose writes store the
  value modulo 2^32 and silently drop out-of-range indices (`Array.setD`).
* The JS `while` loops of the tokenizer strictly increase `position` on
  every iteration and stop once `position ≥ length`, so they are embedded
  with an explicit counter `length - position`; the counter can only reach
  0 when `position ≥ length`, where the loop body and the counter-exhausted
  branch coincide, so the embedding computes exactly the source loop.
-/

/-! ## Tokenizer state (src/unnamed/part_001) -/

structure Tokenizer where
  data : List Nat
  position : Nat
  length : Nat
  lineNumber : Nat
  tokenStart : Nat
  tokenEnd : Nat
deriving Repr, DecidableEq

/-- The `Tokenizer(data)` constructor. -/
def Tokenizer.mk0 (data : List Nat) : Tokenizer :=
  { data := data, position := 0, length := data.length,
    lineNumber := 1, tokenStart := 0, tokenEnd := 0 }

/-- JS `String.prototype.substring` (clamps and swaps its arguments). -/
def substringJs (data : List Nat) (start stop : Nat) : List Nat :=
  let a := min start stop
  let b := max start stop
  (data.drop a).take (b - a)

/-- `Tokenizer.getTokenString`. -/
def Tokenizer.getTokenString (s : Tokenizer) : List Nat :=
  substringJs s.data s.tokenStart s.tokenEnd

/-- Loop body of `Tokenizer.eatLine`; the counter starts at
`length - position` (see the module docstring). -/
def Tokenizer.eatLineGo (s : Tokenizer) : Nat → Tokenizer
  | 0 => { s with tokenEnd := s.position }
  | n + 1 =>
    if s.position < s.length then
      match s.data.get? s.position with
      | some 10 =>
        { s with tokenEnd := s.position, position := s.position + 1,
                 lineNumber := s.lineNumber + 1 }
      | some 13 =>
        -- the source forms the post-CR state and then advances once more
        -- when the following code unit is a LF; the intermediate state is
        -- inlined here
        if s.data.get? (s.position + 1) = some 10 then
          { s with tokenEnd := s.position, position := s.position + 1 + 1,
                   lineNumber := s.lineNumber + 1 }
        else
          { s with tokenEnd := s.position, position := s.position + 1,
                   lineNumber := s.lineNumber + 1 }
      | _ => Tokenizer.eatLineGo { s with position := s.position + 1 } n
    else { s with tokenEnd := s.position }

/-- `Tokenizer.eatLine`: eat everything until a newline occurs. -/
def Tokenizer.eatLine (s : Tokenizer) : Tokenizer :=
  Tokenizer.eatLineGo s (s.length - s.position)

/-- `Tokenizer.markStart`. -/
def Tokenizer.markStart (s : Tokenizer) : Tokenizer :=
  { s with tokenStart := s.position }

/-- `Tokenizer.markLine`. -/
def Tokenizer.markLine (s : Tokenizer) : Tokenizer :=
  Tokenizer.eatLine (Tokenizer.markStart s)

/-- `Tokenizer.readLine`: returns the advanced state and the line read. -/
def Tokenizer.readLine (s : Tokenizer) : Tokenizer × List Nat :=
  let s1 := Tokenizer.markLine s
  (s1, Tokenizer.getTokenString s1)

/-- Loop body of `Tokenizer.eatValue`. -/
def Tokenizer.eatValueGo (s : Tokenizer) : Nat → Tokenizer
  | 0 => { s with tokenEnd := s.position }
  | n + 1 =>
    if s.position < s.length then
      match s.data.get? s.position with
      | some 9 => { s with tokenEnd := s.position }
      | some 10 => { s with tokenEnd := s.position }
      | some 13 => { s with tokenEnd := s.position }
      | some 32 => { s with tokenEnd := s.position }
      | _ => Tokenizer.eatValueGo { s with position := s.position + 1 } n
    else { s with tokenEnd := s.position }

/-- `Tokenizer.eatValue`: eat everything until a whitespace/newline occurs. -/
def Tokenizer.eatValue (s : Tokenizer) : Tokenizer :=
  Tokenizer.eatValueGo s (s.length - s.position)

/-- Loop body of `Tokenizer.skipWhitespace`; `prev` is the previously seen
code, initialised to 10 as in the source. -/
def Tokenizer.skipWhitespaceGo (s : Tokenizer) (prev : Nat) :
    Nat → Tokenizer × Nat
  | 0 => (s, prev)
  | n + 1 =>
    if s.position < s.length then
      match s.data.get? s.position with
      | some 9 => Tokenizer.skipWhitespaceGo { s with position := s.position + 1 } 9 n
      | some 32 => Tokenizer.skipWhitespaceGo { s with position := s.position + 1 } 32 n
      | some 10 =>
        -- `if (prev !== 13) ++lineNumber; prev = c; ++position`
        if prev ≠ 13 then
          Tokenizer.skipWhitespaceGo
            { s with position := s.position + 1, lineNumber := s.lineNumber + 1 } 10 n
        else
          Tokenizer.skipWhitespaceGo { s with position := s.position + 1 } 10 n
      | some 13 =>
        Tokenizer.skipWhitespaceGo
          { s with position := s.position + 1, lineNumber := s.lineNumber + 1 } 13 n
      | _ => (s, prev)
    else (s, prev)

/-- `Tokenizer.skipWhitespace`: skips space, tab, newline, CR; returns the
state and the last consumed code. -/
def Tokenizer.skipWhitespace (s : Tokenizer) : Tokenizer × Nat :=
  Tokenizer.skipWhitespaceGo s 10 (s.length - s.position)

/-- Well-formedness of a tokenizer state: `length` is the actual data
length (established by the constructor and preserved by every operation)
and the cursor is inside the input. -/
def Tokenizer.WF (s : Tokenizer) : Prop :=
  s.length = s.data.length ∧ s.position ≤ s.length

instance (s : Tokenizer) : Decidable s.WF := by
  unfold Tokenizer.WF; infer_instance

/-! ## TokenBuilder (src/unnamed/part_001) -/

/-- The runtime shape of a `Tokens` value as produced by
`TokenBuilder.create`: the `Tokens` interface fields (`data`, `count`,
`indices`) together with the private `Builder` fields (`offset`,
`indicesLenMinus2`).  `indices` is a `Uint32Array`. -/
structure Tokens where
  data : List Nat
  count : Nat
  offset : Nat
  indices : Array Nat
  indicesLenMinus2 : Int
deriving Repr, DecidableEq

/-- A `Uint32Array` element write: the stored value is reduced mod 2^32 and
an out-of-range index is silently ignored. -/
def u32set (a : Array Nat) (i v : Nat) : Array Nat :=
  a.setD i (v % 4294967296)

namespace TokenBuilder

/-- `TokenBuilder.resize`.  The source computes the new length as
`(1.61 * builder.indices.length) | 0`; the double closest to the literal
`1.61` times an exactly representable integer length, truncated, is
`161 * length / 100` for every length this program can produce, which is
how the expression is embedded.  `newBuffer.set(builder.indices)` copies
the old contents to the front of the zero-initialised new buffer (the new
length is never smaller than the old one since `161 * n / 100 ≥ n`). -/
def resize (b : Tokens) : Tokens :=
  let newSize := 161 * b.indices.size / 100
  let newBuffer : Array Nat :=
    Array.mk (b.indices.toList ++ List.replicate (newSize - b.indices.size) 0)
  { b with indices := newBuffer, indicesLenMinus2 := (newSize : Int) - 2 }

/-- `TokenBuilder.add`. -/
def add (tokens : Tokens) (start stop : Nat) : Tokens :=
  let b := if (tokens.offset : Int) > tokens.indicesLenMinus2 then resize tokens else tokens
  let b1 : Tokens := { b with indices := u32set b.indices b.offset start, offset := b.offset + 1 }
  let b2 : Tokens := { b1 with indices := u32set b1.indices b1.offset stop, offset := b1.offset + 1 }
  { b2 with count := b2.count + 1 }

/-- `TokenBuilder.addUnchecked`. -/
def addUnchecked (tokens : Tokens) (start stop : Nat) : Tokens :=
  let b1 : Tokens := { tokens with indices := u32set tokens.indices tokens.offset start, offset := tokens.offset + 1 }
  let b2 : Tokens := { b1 with indices := u32set b1.indices b1.offset stop, offset := b1.offset + 1 }
  { b2 with count := b2.count + 1 }

/-- `TokenBuilder.create`. -/
def create (tokenizer : Tokenizer) (size0 : Nat) : Tokens :=
  let size := max 10 size0
  { data := tokenizer.data,
    indicesLenMinus2 := (size : Int) - 2,
    count := 0,
    offset := 0,
    indices := Array.mkArray size 0 }

end TokenBuilder

/-- Well-formedness of a builder as produced by `TokenBuilder.create` (and
preserved by `add`): `indicesLenMinus2` caches the buffer length minus 2,
the write cursor is inside the buffer, and the buffer holds at least the
10 slots `create` guarantees. -/
def Tokens.BuilderWF (t : Tokens) : Prop :=
  t.indicesLenMinus2 = (t.indices.size : Int) - 2 ∧
  t.offset ≤ t.indices.size ∧ 10 ≤ t.indices.size

instance (t : Tokens) : Decidable t.BuilderWF := by
  unfold Tokens.BuilderWF; infer_instance

/-! ## readLines / readLinesAsync (src/unnamed/part_001) -/

/-- `Tokenizer.readLinesChunk`: reads `count` lines, appending each line's
`tokenStart`/`tokenEnd` to `tokens` with `TokenBuilder.addUnchecked`. -/
def Tokenizer.readLinesChunk (s : Tokenizer) (count : Nat) (tokens : Tokens) :
    Tokenizer × Tokens :=
  match count with
  | 0 => (s, tokens)
  | n + 1 =>
    let s1 := Tokenizer.markLine s
    Tokenizer.readLinesChunk s1 n (TokenBuilder.addUnchecked tokens s1.tokenStart s1.tokenEnd)

/-- `Tokenizer.readLines`: advance by `count` lines, returning the advanced
state and the produced line tokens. -/
def Tokenizer.readLines (s : Tokenizer) (count : Nat) : Tokenizer × Tokens :=
  let lineTokens := TokenBuilder.create s (count * 2)
  Tokenizer.readLinesChunk s count lineTokens

/-- One progress report pushed through `ctx.update`. -/
structure Report where
  message : String
  current : Nat
  max : Nat
deriving Repr, DecidableEq

/-- Modelled from the spec: `chunkedSubtask` of `mol-task` (§4.1), whose
implementation is not part of this excerpt.  The loop repeatedly invokes
`processChunk` with the current chunk size, reports progress once per
chunk, and ends when `processChunk` returns fewer consumed units than the
requested chunk size.  The chunk size may be re-tuned between chunks by the
scheduler (timing-driven, hence unspecified), so the model takes an
arbitrary sequence `sizes` of chunk sizes; `fuel` bounds the number of
iterations the model may take (the source loop has no such bound), and the
first component is `none` exactly when `fuel` iterations did not reach the
termination condition.  Reports are collected in order of emission.  The
model covers the executions in which no abort is requested. -/
def chunkedSubtask {σ : Type} (fuel : Nat) (sizes : Nat → Nat) (idx : Nat)
    (state : σ) (processChunk : Nat → σ → σ × Nat)
    (reportProgress : σ → Report) : Option σ × List Report :=
  match fuel with
  | 0 => (none, [])
  | f + 1 =>
    let n := sizes idx
    let r := processChunk n state
    let rep := reportProgress r.1
    if r.2 < n then (some r.1, [rep])
    else
      let rest := chunkedSubtask f sizes (idx + 1) r.1 processChunk reportProgress
      (rest.1, rep :: rest.2)

/-- The loop state threaded through `readLinesAsync`'s `chunkedSubtask`
call: the tokenizer (the `state` argument), the `lineTokens` builder and
the `linesAlreadyRead` counter captured by the closure. -/
structure ReadLinesLoop where
  tok : Tokenizer
  tokens : Tokens
  linesAlreadyRead : Nat
deriving Repr, DecidableEq

/-- The `processChunk` closure of `Tokenizer.readLinesAsync`. -/
def Tokenizer.readLinesAsyncChunk (count : Nat) (chunkSize : Nat)
    (ls : ReadLinesLoop) : ReadLinesLoop × Nat :=
  let linesToRead := min (count - ls.linesAlreadyRead) chunkSize
  let r := Tokenizer.readLinesChunk ls.tok linesToRead ls.tokens
  ({ tok := r.1, tokens := r.2,
     linesAlreadyRead := ls.linesAlreadyRead + linesToRead }, linesToRead)

/-- `Tokenizer.readLinesAsync`: the chunked variant of `readLines`.  The
`sizes` sequence generalises the single `initialLineCount` argument (the
scheduler may re-tune the chunk size between chunks); `fuel` is the
iteration bound of the `chunkedSubtask` model.  Returns the final
tokenizer state, the produced tokens and the reports emitted, or `none`
for the first component when `fuel` was exhausted. -/
def Tokenizer.readLinesAsync (state : Tokenizer) (count : Nat) (fuel : Nat)
    (sizes : Nat → Nat) : Option (Tokenizer × Tokens) × List Report :=
  let lineTokens := TokenBuilder.create state (count * 2)
  let r := chunkedSubtask fuel sizes 0
    (ReadLinesLoop.mk state lineTokens 0)
    (Tokenizer.readLinesAsyncChunk count)
    (fun ls => { message := "Parsing...", current := ls.tok.position, max := state.length })
  (r.1.map (fun ls => (ls.tok, ls.tokens)), r.2)

/-! ## ColorScale (src/unnamed/part_000)

Numbers flow through `ColorScale` as JS doubles; the embedding uses `ℚ`
(the arithmetic the scale performs — subtraction, one division by a fixed
divisor, multiplication, `min`/`max`, `floor`/`ceil` — is exact on the
values of interest).  A `Color` is a hex integer.  `Color.interpolate`
lives outside this excerpt, but `interpolate c c 0 = c` for the
interpolation between a color and itself at parameter 0, so "`color`
returns palette color `x`" is rendered as "the triple
`(colors[tf], colors[ceil t], t - tf)` the scale feeds to
`Color.interpolate` is `(x, x, 0)`". -/

/-- The palette actually used by `ColorScale.create`: the props' palette,
reversed when `reverse` is set. -/
def ColorScale.effColors (reverse : Bool) (cs : List Nat) : List Nat :=
  if reverse then cs.reverse else cs

/-- `setDomain`'s stored divisor: `diff = (max - min) || 1`. -/
def ColorScale.diffOf (mn mx : ℚ) : ℚ :=
  if mx - mn = 0 then 1 else mx - mn

/-- The clamped interpolation parameter
`t = min(colors.length - 1, max(0, ((value - min) / diff) * count1))`
computed by `color`. -/
def ColorScale.tParam (colors : List Nat) (mn diff value : ℚ) : ℚ :=
  min ((colors.length : ℚ) - 1) (max 0 ((value - mn) / diff * ((colors.length : ℚ) - 1)))

/-- The two palette entries and fractional parameter `color` passes to
`Color.interpolate`: `(colors[Math.floor t], colors[Math.ceil t], t - tf)`. -/
def ColorScale.colorTriple (colors : List Nat) (mn diff value : ℚ) :
    Nat × Nat × ℚ :=
  let t := ColorScale.tParam colors mn diff value
  let tf := ⌊t⌋
  (colors.getD tf.toNat 0, colors.getD ⌈t⌉.toNat 0, t - tf)

/-! ## The cooperative task core (`mol-task`), modelled from the spec

`Task`, `ExecutionContext`, `Scheduler.delay` and the Driver `Run` are
imported by the excerpt but their implementation is not part of it; the
model below follows the specification.  A computation is the tree of the
operations a `run` function may perform against its context:

* `ret v` — the promise resolves with `v` (§4.4 Success);
* `fail e` — an ordinary error is thrown (§4.4 Failure, §7);
* `abortSelf r` — the computation throws the `Task.Aborted(r)` marker
  (§4.3, voluntary abort);
* `update msg k` — a `ctx.update` checkpoint: per §4.2 the call fails with
  an Abort signal when `abortRequested` is observed, otherwise the
  computation continues as `k`;
* `delay ms k` — `Scheduler.delay`: a cooperative suspension after which
  a pending abort request becomes observable at the next checkpoint; §4.2
  names `update`/`runChild` as the only cancellation checks, so `delay`
  itself does not fail;
* `runChild name onAbort child k` — spawn-and-await of a child task: a
  checkpoint, then the child runs and its abort/failure propagates to the
  parent (§4.2, §7); the awaited value feeds the continuation `k`.

Values are integers (what the repository's tests compute).  The observer's
single cancellation entry point `requestAbort` (§4.4) is modelled by an
abort schedule: `some (n, reason)` means `abortRequested` is `true` with
the given reason from the `n`-th suspension point on (suspension points —
`update`, `delay`, `runChild` — are globally counted); `none` means no
abort is ever requested.  `onAbort` callbacks are labels; an execution
yields the outcome together with the ordered list of `onAbort` labels
invoked before the rejection is delivered (§4.4 Abort). -/

/-- A task computation (the `run` function's behaviour). -/
inductive Comp where
  | ret (v : Int)
  | fail (e : String)
  | abortSelf (reason : String)
  | update (msg : String) (k : Comp)
  | delay (ms : Nat) (k : Comp)
  | runChild (name : String) (onAbort : Option String) (child : Comp) (k : Int → Comp)

/-- Modelled from the spec: a `Task` (§3) — a name, a computation and an
optional `onAbort` cleanup label. -/
structure MolTask where
  name : String
  run : Comp
  onAbort : Option String

/-- The three terminal outcomes of a run (§4.4). -/
inductive Outcome where
  | ok (v : Int)
  | aborted (reason : String)
  | failed (e : String)
deriving Repr, DecidableEq

/-- The abort schedule: whether `abortRequested` is observed at global
suspension-point index `t`. -/
def abortReqAt (sched : Option (Nat × String)) (t : Nat) : Bool :=
  match sched with
  | none => false
  | some (n, _) => n ≤ t

/-- The reason carried by the schedule (`requestAbort`'s argument). -/
def schedReason (sched : Option (Nat × String)) : String :=
  match sched with
  | none => ""
  | some (_, r) => r

/-- Modelled from the spec: evaluation of a computation under an abort
schedule.  Arguments: the schedule, the computation, the current global
suspension-point counter.  Returns the outcome, the counter afterwards,
and the `onAbort` labels invoked so far, innermost (deepest descendant)
first — each `runChild` frame appends its child's label after the labels
of the child's own descendants, which realises the child-before-parent
order of §4.4. -/
def evalComp (sched : Option (Nat × String)) :
    Comp → Nat → Outcome × Nat × List String
  | .ret v, t => (.ok v, t, [])
  | .fail e, t => (.failed e, t, [])
  | .abortSelf r, t => (.aborted r, t, [])
  | .update _ k, t =>
    if abortReqAt sched t then (.aborted (schedReason sched), t + 1, [])
    else evalComp sched k (t + 1)
  | .delay _ k, t => evalComp sched k (t + 1)
  | .runChild _ onAb child k, t =>
    if abortReqAt sched t then (.aborted (schedReason sched), t + 1, [])
    else
      match evalComp sched child (t + 1) with
      | (.ok v, t1, tr) =>
        let r := evalComp sched (k v) t1
        (r.1, r.2.1, tr ++ r.2.2)
      | (.aborted r, t1, tr) => (.aborted r, t1, tr ++ onAb.toList)
      | (.failed e, t1, tr) => (.failed e, t1, tr)

/-- Modelled from the spec: the Driver `Run` (§4.4).  Runs the root task's
computation from suspension counter 0; on an Abort outcome the root task's
own `onAbort` is invoked last (after every pending descendant's), before
the rejection is delivered with the reason. -/
def RunModel (sched : Option (Nat × String)) (task : MolTask) :
    Outcome × List String :=
  match evalComp sched task.run 0 with
  | (.aborted r, _, tr) => (.aborted r, tr ++ task.onAbort.toList)
  | (o, _, tr) => (o, tr)

/-- `true` when a computation performs no `ctx.update` and no
`ctx.runChild` call on any path (`chunkedSubtask` yields through
`ctx.update`, so it is covered by the `update` constructor). -/
def checkpointFree : Comp → Bool
  | .ret _ => true
  | .fail _ => true
  | .abortSelf _ => true
  | .update _ _ => false
  | .delay _ k => checkpointFree k
  | .runChild _ _ _ _ => false

/-! ### The repository's task tests (src/src/mol-geo/geometry/transform-data.ts) -/

/-- `test1`'s task: `Task.create('test', async () => 1)`. -/
def test1Task : MolTask :=
  { name := "test", run := .ret 1, onAbort := none }

/-- `createTask(delayMs, r)`: update, delay, guarded update, return `r`;
its `onAbort` logs. -/
def createTaskComp (delayMs : Nat) (r : Int) : Comp :=
  .update ("Processing delayed... ") (.delay delayMs
    (.update "hello from delayed... " (.ret r)))

/-- `abortAfter(delay)`: delay, then throw `Task.Aborted('test')`. -/
def abortAfterComp (d : Nat) : Comp :=
  .delay d (.abortSelf "test")

/-- `testTree()`'s computation: three delays with progress updates, three
children created by `createTask` resolving to 1, 2 and 3, awaited in
order, then one more update and `return r + 1`. -/
def testTreeComp : Comp :=
  .delay 250 (.update "hi! 1" (.delay 125 (.update "hi! 2" (.delay 250
    (.update "hi! 3"
      (.runChild "delayed value 1" (some "On abort called 1") (createTaskComp 250 1) (fun v1 =>
        .runChild "delayed value 2" (some "On abort called 2") (createTaskComp 500 2) (fun v2 =>
          .runChild "delayed value 3" (some "On abort called 3") (createTaskComp 750 3) (fun v3 =>
            .update "Almost done..." (.ret (v1 + v2 + v3 + 1)))))))))))

/-- The `testTree()` task. -/
def testTreeTask : MolTask :=
  { name := "test o", run := testTreeComp, onAbort := none }

/-- A chain of nested `runChild` frames around an innermost computation:
`nestChain [f1, …, fn] c` is the computation whose direct child is `f1`'s
task, whose grandchild is `f2`'s, and so on, with `c` the innermost `run`
body; each frame carries the child task's name and optional `onAbort`
label, and each parent returns its awaited child's value unchanged. -/
def nestChain : List (String × Option String) → Comp → Comp
  | [], c => c
  | f :: fs, c => .runChild f.1 f.2 (nestChain fs c) (fun v => .ret v)

/-- The spec's composition example: two children resolving to `a` and `b`,
awaited and summed by the parent. -/
def sumComp (a b : Int) : Comp :=
  .runChild "A" none (.ret a) (fun x =>
    .runChild "B" none (.ret b) (fun y => .ret (x + y)))

example : RunModel none test1Task = (.ok 1, []) := by decide
example : RunModel none testTreeTask = (.ok 7, []) := by decide
example : RunModel none { name := "abort after 350", run := abortAfterComp 350, onAbort := none }
    = (.aborted "test", []) := by decide
example : RunModel (some (2, "x")) testTreeTask = (.aborted "x", []) := by decide
example :
    RunModel (some (7, "x")) testTreeTask
      = (.aborted "x", ["On abort called 1"]) := by decide

example :
    (Tokenizer.mk0 [97, 10, 98, 10, 99]).readLinesAsync 2 3 (fun _ => 1)
      = ((some ((Tokenizer.mk0 [97, 10, 98, 10, 99]).readLines 2)),
          [⟨"Parsing...", 2, 5⟩, ⟨"Parsing...", 4, 5⟩, ⟨"Parsing...", 4, 5⟩]) := by decide

example : ColorScale.colorTriple [0, 100] 0 1 0 = (0, 0, 0) := by
  norm_num [ColorScale.colorTriple, ColorScale.tParam]
example : ColorScale.colorTriple [0, 100] 0 1 (1/2) = (0, 100, 1/2) := by
  have h1 : ⌈(1/2 : ℚ)⌉ = 1 := by rw [Int.ceil_eq_iff] ; norm_num
  have h2 : ⌊(1/2 : ℚ)⌋ = 0 := by norm_num
  norm_num [ColorScale.colorTriple, ColorScale.tParam, h1, h2]
example : ColorScale.colorTriple [0, 100] 0 1 2 = (100, 100, 0) := by
  norm_num [ColorScale.colorTriple, ColorScale.tParam]

example : (Tokenizer.mk0 [97, 10, 98]).eatLine.position = 2 := by decide
example : (Tokenizer.mk0 [97, 10, 98]).eatLine.tokenEnd = 1 := by decide
example : (Tokenizer.mk0 [97, 13, 10, 98]).eatLine.position = 3 := by decide
example : (Tokenizer.mk0 [97, 98]).eatLine.position = 2 := by decide
example : (Tokenizer.mk0 [97, 98]).eatLine.tokenEnd = 2 := by decide
example : ((Tokenizer.mk0 [32, 9, 97]).skipWhitespace).1.position = 2 := by decide
example : ((Tokenizer.mk0 [13, 10, 97]).skipWhitespace).1.lineNumber = 2 := by decide

/-! ## Invariant lemmas for the tokenizer loops -/


lemma eatLineGo_fields : ∀ (n : Nat) (s : Tokenizer),
    (Tokenizer.eatLineGo s n).data = s.data ∧
    (Tokenizer.eatLineGo s n).length = s.length ∧
    (Tokenizer.eatLineGo s n).tokenStart = s.tokenStart ∧
    s.position ≤ (Tokenizer.eatLineGo s n).position := by
  intro n
  induction n with
  | zero => intro s; exact ⟨rfl, rfl, rfl, Nat.le_refl _⟩
  | succ n ih =>
    intro s
    unfold Tokenizer.eatLineGo
    split
    · split
      · exact ⟨rfl, rfl, rfl, Nat.le_succ _⟩
      · split
        · exact ⟨rfl, rfl, rfl, by dsimp only; omega⟩
        · exact ⟨rfl, rfl, rfl, Nat.le_succ _⟩
      · obtain ⟨h1, h2, h3, h4⟩ := ih { s with position := s.position + 1 }
        dsimp only at h1 h2 h3 h4
        exact ⟨h1, h2, h3, by omega⟩
    · exact ⟨rfl, rfl, rfl, Nat.le_refl _⟩

lemma eatLineGo_pos_le : ∀ (n : Nat) (s : Tokenizer),
    s.length = s.data.length → s.position ≤ s.length →
    (Tokenizer.eatLineGo s n).position ≤ s.length := by
  intro n
  induction n with
  | zero => intro s _ hp; exact hp
  | succ n ih =>
    intro s hd hp
    unfold Tokenizer.eatLineGo
    split
    · rename_i hlt
      split
      · exact hlt
      · split
        · rename_i hc10
          have hb : s.position + 1 < s.data.length :=
            (List.get?_eq_some.mp hc10).1
          dsimp only
          omega
        · exact hlt
      · have := ih { s with position := s.position + 1 } hd hlt
        dsimp only at this
        exact this
    · exact hp

lemma eatLine_fields (s : Tokenizer) :
    (Tokenizer.eatLine s).data = s.data ∧
    (Tokenizer.eatLine s).length = s.length ∧
    (Tokenizer.eatLine s).tokenStart = s.tokenStart ∧
    s.position ≤ (Tokenizer.eatLine s).position :=
  eatLineGo_fields _ s

lemma eatLine_WF {s : Tokenizer} (h : s.WF) : (Tokenizer.eatLine s).WF := by
  obtain ⟨hd, hp⟩ := h
  obtain ⟨h1, h2, _, _⟩ := eatLine_fields s
  refine ⟨h2.trans (hd.trans (congrArg List.length h1).symm), ?_⟩
  rw [h2]
  exact eatLineGo_pos_le _ s hd hp

lemma eatValueGo_fields : ∀ (n : Nat) (s : Tokenizer),
    (Tokenizer.eatValueGo s n).data = s.data ∧
    (Tokenizer.eatValueGo s n).length = s.length ∧
    (Tokenizer.eatValueGo s n).tokenStart = s.tokenStart ∧
    s.position ≤ (Tokenizer.eatValueGo s n).position ∧
    (s.position ≤ s.length → (Tokenizer.eatValueGo s n).position ≤ s.length) := by
  intro n
  induction n with
  | zero => intro s; exact ⟨rfl, rfl, rfl, Nat.le_refl _, fun hp => hp⟩
  | succ n ih =>
    intro s
    unfold Tokenizer.eatValueGo
    split
    · rename_i hlt
      split
      · exact ⟨rfl, rfl, rfl, Nat.le_refl _, fun hp => hp⟩
      · exact ⟨rfl, rfl, rfl, Nat.le_refl _, fun hp => hp⟩
      · exact ⟨rfl, rfl, rfl, Nat.le_refl _, fun hp => hp⟩
      · exact ⟨rfl, rfl, rfl, Nat.le_refl _, fun hp => hp⟩
      · obtain ⟨h1, h2, h3, h4, h5⟩ := ih { s with position := s.position + 1 }
        dsimp only at h1 h2 h3 h4 h5
        exact ⟨h1, h2, h3, by omega, fun _ => h5 hlt⟩
    · exact ⟨rfl, rfl, rfl, Nat.le_refl _, fun hp => hp⟩

lemma eatValue_WF {s : Tokenizer} (h : s.WF) : (Tokenizer.eatValue s).WF := by
  obtain ⟨hd, hp⟩ := h
  obtain ⟨h1, h2, _, _, h5⟩ := eatValueGo_fields (s.length - s.position) s
  exact ⟨h2.trans (hd.trans (congrArg List.length h1).symm), h2 ▸ h5 hp⟩

lemma skipWhitespaceGo_fields : ∀ (n : Nat) (s : Tokenizer) (prev : Nat),
    (Tokenizer.skipWhitespaceGo s prev n).1.data = s.data ∧
    (Tokenizer.skipWhitespaceGo s prev n).1.length = s.length ∧
    (Tokenizer.skipWhitespaceGo s prev n).1.tokenStart = s.tokenStart ∧
    s.position ≤ (Tokenizer.skipWhitespaceGo s prev n).1.position ∧
    (s.position ≤ s.length → (Tokenizer.skipWhitespaceGo s prev n).1.position ≤ s.length) := by
  intro n
  induction n with
  | zero => intro s prev; exact ⟨rfl, rfl, rfl, Nat.le_refl _, fun hp => hp⟩
  | succ n ih =>
    intro s prev
    unfold Tokenizer.skipWhitespaceGo
    split
    · rename_i hlt
      split
      · obtain ⟨h1, h2, h3, h4, h5⟩ := ih { s with position := s.position + 1 } 9
        dsimp only at h1 h2 h3 h4 h5
        exact ⟨h1, h2, h3, by omega, fun _ => h5 hlt⟩
      · obtain ⟨h1, h2, h3, h4, h5⟩ := ih { s with position := s.position + 1 } 32
        dsimp only at h1 h2 h3 h4 h5
        exact ⟨h1, h2, h3, by omega, fun _ => h5 hlt⟩
      · split
        · obtain ⟨h1, h2, h3, h4, h5⟩ :=
            ih { s with position := s.position + 1, lineNumber := s.lineNumber + 1 } 10
          dsimp only at h1 h2 h3 h4 h5
          exact ⟨h1, h2, h3, by omega, fun _ => h5 hlt⟩
        · obtain ⟨h1, h2, h3, h4, h5⟩ := ih { s with position := s.position + 1 } 10
          dsimp only at h1 h2 h3 h4 h5
          exact ⟨h1, h2, h3, by omega, fun _ => h5 hlt⟩
      · obtain ⟨h1, h2, h3, h4, h5⟩ :=
          ih { s with position := s.position + 1, lineNumber := s.lineNumber + 1 } 13
        dsimp only at h1 h2 h3 h4 h5
        exact ⟨h1, h2, h3, by omega, fun _ => h5 hlt⟩
      · exact ⟨rfl, rfl, rfl, Nat.le_refl _, fun hp => hp⟩
    · exact ⟨rfl, rfl, rfl, Nat.le_refl _, fun hp => hp⟩

lemma skipWhitespace_WF {s : Tokenizer} (h : s.WF) :
    (Tokenizer.skipWhitespace s).1.WF := by
  obtain ⟨hd, hp⟩ := h
  obtain ⟨h1, h2, _, _, h5⟩ := skipWhitespaceGo_fields (s.length - s.position) s 10
  exact ⟨h2.trans (hd.trans (congrArg List.length h1).symm), h2 ▸ h5 hp⟩

lemma markLine_fields (s : Tokenizer) :
    (Tokenizer.markLine s).data = s.data ∧
    (Tokenizer.markLine s).length = s.length ∧
    (Tokenizer.markLine s).tokenStart = s.position ∧
    s.position ≤ (Tokenizer.markLine s).position := by
  obtain ⟨h1, h2, h3, h4⟩ := eatLine_fields (Tokenizer.markStart s)
  exact ⟨h1, h2, h3, h4⟩

lemma markLine_WF {s : Tokenizer} (h : s.WF) : (Tokenizer.markLine s).WF :=
  eatLine_WF ⟨h.1, h.2⟩

lemma readLinesChunk_fields : ∀ (count : Nat) (s : Tokenizer) (t : Tokens),
    (Tokenizer.readLinesChunk s count t).1.data = s.data ∧
    (Tokenizer.readLinesChunk s count t).1.length = s.length ∧
    s.position ≤ (Tokenizer.readLinesChunk s count t).1.position := by
  intro count
  induction count with
  | zero => intro s t; exact ⟨rfl, rfl, Nat.le_refl _⟩
  | succ n ih =>
    intro s t
    obtain ⟨m1, m2, _, m4⟩ := markLine_fields s
    obtain ⟨h1, h2, h3⟩ := ih (Tokenizer.markLine s) (TokenBuilder.addUnchecked t
      (Tokenizer.markLine s).tokenStart (Tokenizer.markLine s).tokenEnd)
    exact ⟨h1.trans m1, h2.trans m2, Nat.le_trans m4 h3⟩

lemma readLinesChunk_WF : ∀ (count : Nat) (s : Tokenizer) (t : Tokens),
    s.WF → (Tokenizer.readLinesChunk s count t).1.WF := by
  intro count
  induction count with
  | zero => intro s t h; exact h
  | succ n ih =>
    intro s t h
    exact ih (Tokenizer.markLine s) _ (markLine_WF h)

/-- `readLinesChunk` splits over addition of line counts. -/
lemma readLinesChunk_add : ∀ (a b : Nat) (s : Tokenizer) (t : Tokens),
    Tokenizer.readLinesChunk s (a + b) t
      = Tokenizer.readLinesChunk (Tokenizer.readLinesChunk s a t).1 b
          (Tokenizer.readLinesChunk s a t).2 := by
  intro a
  induction a with
  | zero => intro b s t; rw [Nat.zero_add]; rfl
  | succ n ih =>
    intro b s t
    have hadd : n + 1 + b = (n + b) + 1 := by omega
    rw [hadd]
    show Tokenizer.readLinesChunk (Tokenizer.markLine s) (n + b) _
      = Tokenizer.readLinesChunk (Tokenizer.readLinesChunk s (n + 1) t).1 b
          (Tokenizer.readLinesChunk s (n + 1) t).2
    rw [ih]
    rfl

/-! ## TokenBuilder lemmas -/

lemma u32set_size (a : Array Nat) (i v : Nat) : (u32set a i v).size = a.size :=
  Array.size_setD a i _

lemma u32set_getD_ne (a : Array Nat) (i v j : Nat) (h : j ≠ i) :
    (u32set a i v).getD j 0 = a.getD j 0 := by
  unfold u32set Array.setD
  split
  · simp only [Array.getD, Array.size_set]
    split <;> rename_i hj
    · simp only [Array.get_eq_getElem, Array.getElem_set]
      rw [if_neg (fun hij => h hij.symm)]
    · rfl
  · rfl

lemma u32set_getD_eq (a : Array Nat) (i v : Nat) (h : i < a.size) :
    (u32set a i v).getD i 0 = v % 4294967296 := by
  unfold u32set Array.setD
  rw [dif_pos h]
  simp only [Array.getD, Array.size_set]
  rw [dif_pos h]
  simp [Array.get_eq_getElem, Array.getElem_set]

lemma addUnchecked_fields (t : Tokens) (a b : Nat) :
    (TokenBuilder.addUnchecked t a b).data = t.data ∧
    (TokenBuilder.addUnchecked t a b).count = t.count + 1 ∧
    (TokenBuilder.addUnchecked t a b).offset = t.offset + 2 ∧
    (TokenBuilder.addUnchecked t a b).indices.size = t.indices.size ∧
    (TokenBuilder.addUnchecked t a b).indicesLenMinus2 = t.indicesLenMinus2 := by
  refine ⟨rfl, rfl, rfl, ?_, rfl⟩
  show (u32set (u32set t.indices t.offset a) (t.offset + 1) b).size = t.indices.size
  rw [u32set_size, u32set_size]

lemma readLinesChunk_tokens : ∀ (count : Nat) (s : Tokenizer) (t : Tokens),
    (Tokenizer.readLinesChunk s count t).2.offset = t.offset + 2 * count ∧
    (Tokenizer.readLinesChunk s count t).2.count = t.count + count ∧
    (Tokenizer.readLinesChunk s count t).2.indices.size = t.indices.size := by
  intro count
  induction count with
  | zero => intro s t; exact ⟨rfl, rfl, rfl⟩
  | succ n ih =>
    intro s t
    obtain ⟨h1, h2, h3⟩ := ih (Tokenizer.markLine s) (TokenBuilder.addUnchecked t
      (Tokenizer.markLine s).tokenStart (Tokenizer.markLine s).tokenEnd)
    obtain ⟨_, a2, a3, a4, _⟩ := addUnchecked_fields t
      (Tokenizer.markLine s).tokenStart (Tokenizer.markLine s).tokenEnd
    refine ⟨?_, ?_, ?_⟩
    · show (Tokenizer.readLinesChunk (Tokenizer.markLine s) n _).2.offset = _
      rw [h1, a3]; omega
    · show (Tokenizer.readLinesChunk (Tokenizer.markLine s) n _).2.count = _
      rw [h2, a2]; omega
    · show (Tokenizer.readLinesChunk (Tokenizer.markLine s) n _).2.indices.size = _
      rw [h3, a4]

lemma create_indices_size (tk : Tokenizer) (size0 : Nat) :
    (TokenBuilder.create tk size0).indices.size = max 10 size0 := by
  simp [TokenBuilder.create, Array.size_mkArray]

/-! ## The chunked line-reading loop -/

/-- The central loop lemma: starting from `linesAlreadyRead = read ≤ count`,
the `chunkedSubtask` loop of `readLinesAsync` terminates within
`count - read < fuel` iterations (every chunk size is at least 1) and its
final state is exactly a single `readLinesChunk` pass over the remaining
`count - read` lines. -/
lemma chunkedSubtask_readLinesAsync_loop (count : Nat) (sizes : Nat → Nat)
    (hsz : ∀ i, 1 ≤ sizes i) (rep : ReadLinesLoop → Report) :
    ∀ (fuel idx read : Nat) (tok : Tokenizer) (tokens : Tokens),
      read ≤ count → count - read < fuel →
      (chunkedSubtask fuel sizes idx ⟨tok, tokens, read⟩
          (Tokenizer.readLinesAsyncChunk count) rep).1
        = some ⟨(Tokenizer.readLinesChunk tok (count - read) tokens).1,
                (Tokenizer.readLinesChunk tok (count - read) tokens).2, count⟩ := by
  intro fuel
  induction fuel with
  | zero => intro idx read tok tokens hr hf; omega
  | succ f ih =>
    intro idx read tok tokens hr hf
    simp only [chunkedSubtask, Tokenizer.readLinesAsyncChunk]
    split
    · rename_i hlt
      dsimp only at hlt ⊢
      have hmin : min (count - read) (sizes idx) = count - read := by omega
      rw [hmin]
      have hcr : read + (count - read) = count := by omega
      rw [hcr]
    · rename_i hge
      dsimp only at hge ⊢
      have hm1 := hsz idx
      have hmin : min (count - read) (sizes idx) = sizes idx := by omega
      rw [hmin] at hge ⊢
      have hle : sizes idx ≤ count - read := by omega
      have := ih (idx + 1) (read + sizes idx)
        (Tokenizer.readLinesChunk tok (sizes idx) tokens).1
        (Tokenizer.readLinesChunk tok (sizes idx) tokens).2
        (by omega) (by omega)
      rw [this]
      have hsplit : count - read = sizes idx + (count - (read + sizes idx)) := by omega
      rw [hsplit, readLinesChunk_add]

/-- Every progress report emitted by a `chunkedSubtask` run arises from a
loop state reachable by iterating `processChunk`, so any invariant of
`processChunk` holds at every report. -/
lemma chunkedSubtask_reports {σ : Type} (P : σ → Prop)
    (pc : Nat → σ → σ × Nat) (rep : σ → Report)
    (hstep : ∀ n s, P s → P (pc n s).1) :
    ∀ (fuel : Nat) (sizes : Nat → Nat) (idx : Nat) (s : σ), P s →
      ∀ r ∈ (chunkedSubtask fuel sizes idx s pc rep).2,
        ∃ s', P s' ∧ r = rep s' := by
  intro fuel
  induction fuel with
  | zero =>
    intro sizes idx s hP r hr
    simp [chunkedSubtask] at hr
  | succ f ih =>
    intro sizes idx s hP r hr
    simp only [chunkedSubtask] at hr
    split at hr
    · rename_i hlt
      rw [List.mem_singleton] at hr
      exact ⟨(pc (sizes idx) s).1, hstep _ _ hP, hr⟩
    · rename_i hge
      rw [List.mem_cons] at hr
      rcases hr with hr | hr
      · exact ⟨(pc (sizes idx) s).1, hstep _ _ hP, hr⟩
      · exact ih sizes (idx + 1) (pc (sizes idx) s).1 (hstep _ _ hP) r hr

/-- **C1**: chunking is observationally transparent: for every input
string, every line count `count ≥ 0` and every sequence of chunk sizes
that are at least 1 (this covers every `initialLineCount ≥ 1`, whatever
re-tuning the scheduler applies), `readLinesAsync` resolves with a
`Tokens` value equal (count, indices and all) to the one produced by the
synchronous `readLines` from the same initial state, and leaves the
tokenizer state (position, lineNumber, tokenStart, tokenEnd) identical to
what `readLines` leaves. -/
theorem C1_readLinesAsync_transparent (s : Tokenizer) (count fuel : Nat)
    (sizes : Nat → Nat) (hsz : ∀ i, 1 ≤ sizes i) (hfuel : count < fuel) :
    (Tokenizer.readLinesAsync s count fuel sizes).1
      = some (Tokenizer.readLines s count) := by
  unfold Tokenizer.readLinesAsync Tokenizer.readLines
  dsimp only
  rw [chunkedSubtask_readLinesAsync_loop count sizes hsz _ fuel 0 0 s
    (TokenBuilder.create s (count * 2)) (Nat.zero_le _) (by omega)]
  rfl

theorem C1_readLinesAsync_transparent_witness :
    (∀ i : Nat, 1 ≤ (fun _ : Nat => 1) i) ∧ 2 < 3 ∧
    (Tokenizer.readLinesAsync (Tokenizer.mk0 [97, 10, 98, 10, 99]) 2 3 (fun _ => 1)).1
      = some (Tokenizer.readLines (Tokenizer.mk0 [97, 10, 98, 10, 99]) 2) :=
  ⟨fun _ => Nat.le_refl 1, by decide,
    C1_readLinesAsync_transparent _ 2 3 _ (fun _ => Nat.le_refl 1) (by decide)⟩

/-- **C6**: the chunked loop of `readLinesAsync` terminates for every
`count ≥ 0` and every sequence of positive chunk sizes: its `processChunk`
consumes `min (count - linesAlreadyRead) chunkSize` lines per chunk, so
`linesAlreadyRead` strictly increases while below `count`, `processChunk`
returns a value smaller than the requested `chunkSize` exactly when the
remaining lines are fewer than requested (the convention that ends the
loop), and `count + 1` iterations always suffice. -/
theorem C6_readLinesAsync_terminates :
    (∀ (count chunkSize : Nat) (ls : ReadLinesLoop),
        (Tokenizer.readLinesAsyncChunk count chunkSize ls).2
          = min (count - ls.linesAlreadyRead) chunkSize) ∧
    (∀ (count chunkSize : Nat) (ls : ReadLinesLoop),
        ls.linesAlreadyRead < count → 1 ≤ chunkSize →
        ls.linesAlreadyRead
          < (Tokenizer.readLinesAsyncChunk count chunkSize ls).1.linesAlreadyRead) ∧
    (∀ (count chunkSize : Nat) (ls : ReadLinesLoop),
        (Tokenizer.readLinesAsyncChunk count chunkSize ls).2 < chunkSize
          ↔ count - ls.linesAlreadyRead < chunkSize) ∧
    (∀ (s : Tokenizer) (count : Nat) (sizes : Nat → Nat), (∀ i, 1 ≤ sizes i) →
        (Tokenizer.readLinesAsync s count (count + 1) sizes).1.isSome) := by
  refine ⟨fun count chunkSize ls => rfl, ?_, ?_, ?_⟩
  · intro count chunkSize ls hlt hcs
    simp only [Tokenizer.readLinesAsyncChunk]
    omega
  · intro count chunkSize ls
    simp only [Tokenizer.readLinesAsyncChunk]
    omega
  · intro s count sizes hsz
    unfold Tokenizer.readLinesAsync
    dsimp only
    rw [chunkedSubtask_readLinesAsync_loop count sizes hsz _ (count + 1) 0 0 s
      (TokenBuilder.create s (count * 2)) (Nat.zero_le _) (by omega)]
    rfl

theorem C6_readLinesAsync_terminates_witness :
    (Tokenizer.readLinesAsync (Tokenizer.mk0 [97, 10, 98]) 5 6 (fun _ => 2)).1.isSome :=
  C6_readLinesAsync_terminates.2.2.2 _ 5 (fun _ => 2) (fun _ => one_le_two)

/-- **C7**: every progress report issued by `readLinesAsync` carries the
message `'Parsing...'`, `current` equal to the tokenizer's position after
some prefix of at most `count` lines, and `max` equal to the input length;
as the tokenizer's position never exceeds the input length, every report
satisfies `current ≤ max`. -/
theorem C7_readLinesAsync_progress (s : Tokenizer) (count fuel : Nat)
    (sizes : Nat → Nat) (hWF : s.WF) :
    ∀ r ∈ (Tokenizer.readLinesAsync s count fuel sizes).2,
      r.message = "Parsing..." ∧ r.max = s.length ∧
      (∃ i, i ≤ count ∧
        r.current = (Tokenizer.readLinesChunk s i
          (TokenBuilder.create s (count * 2))).1.position) ∧
      r.current ≤ r.max := by
  intro r hr
  have hrep := chunkedSubtask_reports
    (fun ls : ReadLinesLoop => ls.linesAlreadyRead ≤ count ∧
      (ls.tok, ls.tokens) = Tokenizer.readLinesChunk s ls.linesAlreadyRead
        (TokenBuilder.create s (count * 2)))
    (Tokenizer.readLinesAsyncChunk count)
    (fun ls => { message := "Parsing...", current := ls.tok.position, max := s.length })
    ?step fuel sizes 0 ⟨s, TokenBuilder.create s (count * 2), 0⟩ ⟨Nat.zero_le _, rfl⟩ r hr
  case step =>
    intro n ls hP
    obtain ⟨hle, hpair⟩ := hP
    simp only [Tokenizer.readLinesAsyncChunk]
    refine ⟨by omega, ?_⟩
    have hsplit := readLinesChunk_add ls.linesAlreadyRead
      (min (count - ls.linesAlreadyRead) n) s (TokenBuilder.create s (count * 2))
    rw [← hpair] at hsplit
    rw [hsplit]
  obtain ⟨ls, ⟨hle, hpair⟩, hrrep⟩ := hrep
  have htok : ls.tok = (Tokenizer.readLinesChunk s ls.linesAlreadyRead
      (TokenBuilder.create s (count * 2))).1 := congrArg Prod.fst hpair
  subst hrrep
  refine ⟨rfl, rfl, ⟨ls.linesAlreadyRead, hle, by dsimp only; rw [htok]⟩, ?_⟩
  show ls.tok.position ≤ s.length
  have hWF2 : (Tokenizer.readLinesChunk s ls.linesAlreadyRead
      (TokenBuilder.create s (count * 2))).1.WF :=
    readLinesChunk_WF _ s _ hWF
  obtain ⟨_, h2, _⟩ := readLinesChunk_fields ls.linesAlreadyRead s
    (TokenBuilder.create s (count * 2))
  rw [htok]
  exact le_trans hWF2.2 (le_of_eq h2)

theorem C7_readLinesAsync_progress_witness :
    (Tokenizer.mk0 [97, 10, 98, 10, 99]).WF ∧
    (⟨"Parsing...", 2, 5⟩ : Report)
        ∈ (Tokenizer.readLinesAsync (Tokenizer.mk0 [97, 10, 98, 10, 99]) 2 3 (fun _ => 1)).2 ∧
    ((⟨"Parsing...", 2, 5⟩ : Report).message = "Parsing..." ∧
      (⟨"Parsing...", 2, 5⟩ : Report).max = (Tokenizer.mk0 [97, 10, 98, 10, 99]).length ∧
      (∃ i, i ≤ 2 ∧
        (⟨"Parsing...", 2, 5⟩ : Report).current
          = (Tokenizer.readLinesChunk (Tokenizer.mk0 [97, 10, 98, 10, 99]) i
              (TokenBuilder.create (Tokenizer.mk0 [97, 10, 98, 10, 99]) (2 * 2))).1.position) ∧
      (⟨"Parsing...", 2, 5⟩ : Report).current ≤ (⟨"Parsing...", 2, 5⟩ : Report).max) :=
  ⟨by decide, by decide,
    C7_readLinesAsync_progress (Tokenizer.mk0 [97, 10, 98, 10, 99]) 2 3 (fun _ => 1)
      (by decide) ⟨"Parsing...", 2, 5⟩ (by decide)⟩

/-- **C8**: every forward tokenizer operation (`eatLine`, `eatValue`,
`skipWhitespace`, `markLine`, `readLine`, `readLines`) preserves
`0 ≤ position ≤ length` and never decreases `position`; in particular,
when `position = length`, `eatLine` leaves `position` unchanged and sets
`tokenEnd` to `position`, so `readLine` at end of input returns the empty
string. -/
theorem C8_tokenizer_invariants :
    (∀ s : Tokenizer, s.WF →
      (Tokenizer.eatLine s).WF ∧ s.position ≤ (Tokenizer.eatLine s).position) ∧
    (∀ s : Tokenizer, s.WF →
      (Tokenizer.eatValue s).WF ∧ s.position ≤ (Tokenizer.eatValue s).position) ∧
    (∀ s : Tokenizer, s.WF →
      (Tokenizer.skipWhitespace s).1.WF ∧
        s.position ≤ (Tokenizer.skipWhitespace s).1.position) ∧
    (∀ s : Tokenizer, s.WF →
      (Tokenizer.markLine s).WF ∧ s.position ≤ (Tokenizer.markLine s).position) ∧
    (∀ s : Tokenizer, s.WF →
      (Tokenizer.readLine s).1.WF ∧ s.position ≤ (Tokenizer.readLine s).1.position) ∧
    (∀ (s : Tokenizer) (count : Nat), s.WF →
      (Tokenizer.readLines s count).1.WF ∧
        s.position ≤ (Tokenizer.readLines s count).1.position) ∧
    (∀ s : Tokenizer, s.position = s.length →
      Tokenizer.eatLine s = { s with tokenEnd := s.position }) ∧
    (∀ s : Tokenizer, s.position = s.length → (Tokenizer.readLine s).2 = []) := by
  have heatEnd : ∀ s : Tokenizer, s.position = s.length →
      Tokenizer.eatLine s = { s with tokenEnd := s.position } := by
    intro s hp
    unfold Tokenizer.eatLine
    have h0 : s.length - s.position = 0 := by omega
    rw [h0]
    rfl
  refine ⟨?_, ?_, ?_, ?_, ?_, ?_, heatEnd, ?_⟩
  · intro s h
    exact ⟨eatLine_WF h, (eatLine_fields s).2.2.2⟩
  · intro s h
    exact ⟨eatValue_WF h, (eatValueGo_fields _ s).2.2.2.1⟩
  · intro s h
    exact ⟨skipWhitespace_WF h, (skipWhitespaceGo_fields _ s 10).2.2.2.1⟩
  · intro s h
    exact ⟨markLine_WF h, (markLine_fields s).2.2.2⟩
  · intro s h
    exact ⟨markLine_WF h, (markLine_fields s).2.2.2⟩
  · intro s count h
    exact ⟨readLinesChunk_WF count s _ h, (readLinesChunk_fields count s _).2.2⟩
  · intro s hp
    show Tokenizer.getTokenString (Tokenizer.markLine s) = []
    unfold Tokenizer.markLine
    have hp2 : (Tokenizer.markStart s).position = (Tokenizer.markStart s).length := hp
    rw [heatEnd _ hp2]
    unfold Tokenizer.getTokenString substringJs Tokenizer.markStart
    dsimp only
    simp

theorem C8_tokenizer_invariants_witness :
    (Tokenizer.mk0 [97, 10]).WF ∧
    ((Tokenizer.eatLine (Tokenizer.mk0 [97, 10])).WF ∧
      (Tokenizer.mk0 [97, 10]).position
        ≤ (Tokenizer.eatLine (Tokenizer.mk0 [97, 10])).position) :=
  ⟨by decide, C8_tokenizer_invariants.1 _ (by decide)⟩

/-! ## TokenBuilder resize/add lemmas -/

lemma resize_size (b : Tokens) :
    (TokenBuilder.resize b).indices.size = 161 * b.indices.size / 100 := by
  show (Array.mk (b.indices.toList
    ++ List.replicate (161 * b.indices.size / 100 - b.indices.size) 0)).size = _
  simp
  omega

lemma resize_getD (b : Tokens) (j : Nat) (h : j < b.indices.size) :
    (TokenBuilder.resize b).indices.getD j 0 = b.indices.getD j 0 := by
  show (Array.mk (b.indices.toList
    ++ List.replicate (161 * b.indices.size / 100 - b.indices.size) 0)).getD j 0
    = b.indices.getD j 0
  unfold Array.getD
  split <;> rename_i hj
  · simp only [Array.get_eq_getElem, Array.getElem_mk]
    rw [List.getElem_append, dif_pos h]
    simp
  · simp at hj
    omega

lemma resize_fields (b : Tokens) :
    (TokenBuilder.resize b).data = b.data ∧
    (TokenBuilder.resize b).count = b.count ∧
    (TokenBuilder.resize b).offset = b.offset ∧
    (TokenBuilder.resize b).indicesLenMinus2
      = (161 * b.indices.size / 100 : Nat) - 2 :=
  ⟨rfl, rfl, rfl, rfl⟩

/-- `TokenBuilder.add` is the conditional `resize` followed by the same
two writes `addUnchecked` performs. -/
lemma add_eq_addUnchecked (t : Tokens) (a b : Nat) :
    TokenBuilder.add t a b
      = TokenBuilder.addUnchecked
          (if (t.offset : Int) > t.indicesLenMinus2 then TokenBuilder.resize t else t)
          a b := by
  unfold TokenBuilder.add TokenBuilder.addUnchecked
  split <;> rfl

lemma addUnchecked_getD (t : Tokens) (a b : Nat) (hsz : t.offset + 2 ≤ t.indices.size)
    (ha : a < 4294967296) (hb : b < 4294967296) :
    (TokenBuilder.addUnchecked t a b).indices.getD t.offset 0 = a ∧
    (TokenBuilder.addUnchecked t a b).indices.getD (t.offset + 1) 0 = b ∧
    (∀ j, j < t.offset →
      (TokenBuilder.addUnchecked t a b).indices.getD j 0 = t.indices.getD j 0) := by
  refine ⟨?_, ?_, ?_⟩
  · show (u32set (u32set t.indices t.offset a) (t.offset + 1) b).getD t.offset 0 = a
    rw [u32set_getD_ne _ _ _ _ (by omega), u32set_getD_eq _ _ _ (by omega),
      Nat.mod_eq_of_lt ha]
  · show (u32set (u32set t.indices t.offset a) (t.offset + 1) b).getD (t.offset + 1) 0 = b
    rw [u32set_getD_eq _ _ _ (by rw [u32set_size]; omega), Nat.mod_eq_of_lt hb]
  · intro j hj
    show (u32set (u32set t.indices t.offset a) (t.offset + 1) b).getD j 0 = _
    rw [u32set_getD_ne _ _ _ _ (by omega), u32set_getD_ne _ _ _ _ (by omega)]

/-- Facts about the builder state right after `add`'s conditional resize. -/
lemma add_resizeStep_facts (t b0 : Tokens) (hW : t.BuilderWF)
    (hb0 : b0 = if (t.offset : Int) > t.indicesLenMinus2 then TokenBuilder.resize t else t) :
    b0.count = t.count ∧ b0.offset = t.offset ∧
    t.offset + 2 ≤ b0.indices.size ∧ t.indices.size ≤ b0.indices.size ∧
    10 ≤ b0.indices.size ∧
    b0.indicesLenMinus2 = (b0.indices.size : Int) - 2 ∧
    (∀ j, j < t.offset → b0.indices.getD j 0 = t.indices.getD j 0) := by
  obtain ⟨hw1, hw2, hw3⟩ := hW
  by_cases hres : (t.offset : Int) > t.indicesLenMinus2
  · rw [if_pos hres] at hb0
    subst hb0
    rw [hw1] at hres
    obtain ⟨f1, f2, f3, f4⟩ := resize_fields t
    have hsz := resize_size t
    have hgrow : t.indices.size + 2 ≤ 161 * t.indices.size / 100 := by omega
    refine ⟨f2, f3, ?_, ?_, ?_, ?_, ?_⟩
    · rw [hsz]; omega
    · rw [hsz]; omega
    · rw [hsz]; omega
    · rw [f4, hsz]
    · intro j hj
      exact resize_getD t j (by omega)
  · rw [if_neg hres] at hb0
    subst hb0
    refine ⟨rfl, rfl, ?_, Nat.le_refl _, hw3, hw1, fun j hj => rfl⟩
    rw [hw1] at hres
    omega

/-- **C9**: `TokenBuilder.add` always records the given start/end pair and
increments `tokens.count` by exactly one, growing the backing `Uint32Array`
when full while preserving every previously stored index pair; and
`readLines(state, count)` allocates capacity `max 10 (2 * count)`, which
suffices for the `2 * count` unchecked writes of `readLinesChunk` via
`addUnchecked`: before each of the `count` unchecked double-writes the
write cursor is at least two slots from the end of the buffer, so no write
goes past the end of the `indices` buffer. -/
theorem C9_tokenBuilder_safety :
    (∀ (t : Tokens) (a b : Nat), t.BuilderWF → a < 4294967296 → b < 4294967296 →
      (TokenBuilder.add t a b).count = t.count + 1 ∧
      (TokenBuilder.add t a b).offset = t.offset + 2 ∧
      t.indices.size ≤ (TokenBuilder.add t a b).indices.size ∧
      (TokenBuilder.add t a b).indices.getD t.offset 0 = a ∧
      (TokenBuilder.add t a b).indices.getD (t.offset + 1) 0 = b ∧
      (∀ j, j < t.offset →
        (TokenBuilder.add t a b).indices.getD j 0 = t.indices.getD j 0) ∧
      (TokenBuilder.add t a b).BuilderWF) ∧
    (∀ (s : Tokenizer) (count : Nat),
      (TokenBuilder.create s (count * 2)).indices.size = max 10 (count * 2)) ∧
    (∀ (s : Tokenizer) (count i : Nat), i < count →
      (Tokenizer.readLinesChunk s i (TokenBuilder.create s (count * 2))).2.offset + 2
        ≤ (Tokenizer.readLinesChunk s i (TokenBuilder.create s (count * 2))).2.indices.size) := by
  refine ⟨?_, ?_, ?_⟩
  · intro t a b hW ha hb
    obtain ⟨g1, g2, g3, g4, g5, g6, g7⟩ :=
      add_resizeStep_facts t _ hW rfl
    set b0 := if (t.offset : Int) > t.indicesLenMinus2 then TokenBuilder.resize t else t
      with hb0def
    rw [add_eq_addUnchecked t a b, ← hb0def]
    obtain ⟨a1, a2, a3, a4, a5⟩ := addUnchecked_fields b0 a b
    obtain ⟨w1, w2, w3⟩ := addUnchecked_getD b0 a b (by omega) ha hb
    refine ⟨by omega, by omega, by omega, ?_, ?_, ?_, ?_⟩
    · rw [← g2]; exact w1
    · rw [← g2]; exact w2
    · intro j hj
      rw [w3 j (by omega)]
      exact g7 j hj
    · exact ⟨by rw [a5, a4, g6], by omega, by omega⟩
  · intro s count
    exact create_indices_size s (count * 2)
  · intro s count i hi
    obtain ⟨h1, _, h3⟩ := readLinesChunk_tokens i s (TokenBuilder.create s (count * 2))
    rw [h1, h3, create_indices_size]
    show (TokenBuilder.create s (count * 2)).offset + 2 * i + 2 ≤ max 10 (count * 2)
    show 0 + 2 * i + 2 ≤ max 10 (count * 2)
    omega

theorem C9_tokenBuilder_safety_witness :
    (TokenBuilder.create (Tokenizer.mk0 []) 0).BuilderWF ∧ 3 < 4294967296 ∧ 7 < 4294967296 ∧
    ((TokenBuilder.add (TokenBuilder.create (Tokenizer.mk0 []) 0) 3 7).count
        = (TokenBuilder.create (Tokenizer.mk0 []) 0).count + 1 ∧
      (TokenBuilder.add (TokenBuilder.create (Tokenizer.mk0 []) 0) 3 7).offset
        = (TokenBuilder.create (Tokenizer.mk0 []) 0).offset + 2 ∧
      (TokenBuilder.create (Tokenizer.mk0 []) 0).indices.size
        ≤ (TokenBuilder.add (TokenBuilder.create (Tokenizer.mk0 []) 0) 3 7).indices.size ∧
      (TokenBuilder.add (TokenBuilder.create (Tokenizer.mk0 []) 0) 3 7).indices.getD
          (TokenBuilder.create (Tokenizer.mk0 []) 0).offset 0 = 3 ∧
      (TokenBuilder.add (TokenBuilder.create (Tokenizer.mk0 []) 0) 3 7).indices.getD
          ((TokenBuilder.create (Tokenizer.mk0 []) 0).offset + 1) 0 = 7 ∧
      (∀ j, j < (TokenBuilder.create (Tokenizer.mk0 []) 0).offset →
        (TokenBuilder.add (TokenBuilder.create (Tokenizer.mk0 []) 0) 3 7).indices.getD j 0
          = (TokenBuilder.create (Tokenizer.mk0 []) 0).indices.getD j 0) ∧
      (TokenBuilder.add (TokenBuilder.create (Tokenizer.mk0 []) 0) 3 7).BuilderWF) :=
  ⟨by decide, by decide, by decide,
    C9_tokenBuilder_safety.1 (TokenBuilder.create (Tokenizer.mk0 []) 0) 3 7
      (by decide) (by decide) (by decide)⟩

/-! ## Task-core lemmas -/

/-- A run's `onAbort` trace is empty unless its outcome is an abort. -/
lemma evalComp_aborted_or_nil (sched : Option (Nat × String)) :
    ∀ (c : Comp) (t : Nat),
      (∃ r, (evalComp sched c t).1 = Outcome.aborted r)
        ∨ (evalComp sched c t).2.2 = [] := by
  intro c
  induction c with
  | ret v => intro t; exact Or.inr rfl
  | fail e => intro t; exact Or.inr rfl
  | abortSelf r => intro t; exact Or.inl ⟨r, rfl⟩
  | update msg k ih =>
    intro t
    simp only [evalComp]
    split
    · exact Or.inl ⟨_, rfl⟩
    · exact ih (t + 1)
  | delay ms k ih =>
    intro t
    exact ih (t + 1)
  | runChild name onAb child k ihc ihk =>
    intro t
    simp only [evalComp]
    split
    · exact Or.inl ⟨_, rfl⟩
    · rcases hchild : evalComp sched child (t + 1) with ⟨o, t1, tr⟩
      have ihc2 := ihc (t + 1)
      rw [hchild] at ihc2
      cases o with
      | ok v =>
        have htr : tr = [] := by
          rcases ihc2 with ⟨r, hr⟩ | hnil
        
          · exact absurd hr (by simp)
          · exact hnil
        subst htr
        rcases ihk v t1 with ⟨r, hr⟩ | hnil
        · exact Or.inl ⟨r, hr⟩
        · right
          simpa using hnil
      | aborted r => exact Or.inl ⟨r, rfl⟩
      | failed e =>
        rcases ihc2 with ⟨r, hr⟩ | hnil
        · exact absurd hr (by simp)
        · exact Or.inr hnil

/-- Outside of abort, `RunModel` hands back the evaluator's outcome with an
empty cleanup trace. -/
lemma RunModel_not_aborted {sched : Option (Nat × String)} {task : MolTask}
    {o : Outcome} {tr : List String} (h : RunModel sched task = (o, tr))
    (hna : ∀ r, o ≠ Outcome.aborted r) : tr = [] := by
  unfold RunModel at h
  rcases heval : evalComp sched task.run 0 with ⟨o1, t1, tr1⟩
  rw [heval] at h
  have hor := evalComp_aborted_or_nil sched task.run 0
  rw [heval] at hor
  cases o1 with
  | ok v =>
    rcases hor with ⟨r, hr⟩ | hnil
    · exact absurd hr (by simp)
    · dsimp only at hnil
      cases h
      exact hnil
  | aborted r =>
    cases h
    exact absurd rfl (hna r)
  | failed e =>
    rcases hor with ⟨r, hr⟩ | hnil
    · exact absurd hr (by simp)
    · dsimp only at hnil
      cases h
      exact hnil

/-- Evaluation of a `nestChain` around an ordinary failure: the error
propagates unchanged and no `onAbort` label is collected. -/
lemma evalComp_nestChain_fail (e : String) :
    ∀ (frames : List (String × Option String)) (t : Nat),
      evalComp none (nestChain frames (.fail e)) t
        = (.failed e, t + frames.length, []) := by
  intro frames
  induction frames with
  | nil => intro t; rfl
  | cons f fs ih =>
    intro t
    simp only [nestChain, evalComp, abortReqAt]
    rw [ih (t + 1)]
    simp only [List.length_cons]
    refine congrArg (fun x => (Outcome.failed e, x, ([] : List String))) ?_
    omega

/-- Evaluation of a `nestChain` around a voluntary abort: the reason
propagates unchanged and each frame's `onAbort` label is collected exactly
once, deepest frame first. -/
lemma evalComp_nestChain_abort (r : String) :
    ∀ (frames : List (String × Option String)) (t : Nat),
      evalComp none (nestChain frames (.abortSelf r)) t
        = (.aborted r, t + frames.length, (frames.filterMap Prod.snd).reverse) := by
  intro frames
  induction frames with
  | nil => intro t; rfl
  | cons f fs ih =>
    intro t
    simp only [nestChain, evalComp, abortReqAt]
    rw [ih (t + 1)]
    simp only [List.length_cons, List.filterMap_cons]
    rcases f with ⟨fname, fab⟩
    cases fab with
    | none =>
      simp only [Option.toList, List.append_nil]
      refine congrArg (fun x => (Outcome.aborted r, x, (fs.filterMap Prod.snd).reverse)) ?_
      omega
    | some lbl =>
      simp only [Option.toList, List.reverse_cons]
      refine congrArg (fun x => (Outcome.aborted r, x,
        (fs.filterMap Prod.snd).reverse ++ [lbl])) ?_
      omega

/-- A computation without checkpoints evaluates identically under every
abort schedule. -/
lemma evalComp_checkpointFree (sched : Option (Nat × String)) :
    ∀ (c : Comp), checkpointFree c = true →
      ∀ t, evalComp sched c t = evalComp none c t := by
  intro c
  induction c with
  | ret v => intro _ t; rfl
  | fail e => intro _ t; rfl
  | abortSelf r => intro _ t; rfl
  | update msg k ih => intro h t; exact absurd h (by simp [checkpointFree])
  | delay ms k ih =>
    intro h t
    simp only [checkpointFree] at h
    exact ih h (t + 1)
  | runChild name onAb child k ihc ihk =>
    intro h t
    exact absurd h (by simp [checkpointFree])

/-- **C2**: for every run in which the computation produces the
`Aborted(reason)` marker (voluntarily, as `abortAfter` does) or a
checkpoint observes `abortRequested`, `Run` rejects with an Abort-kind
error carrying that reason, and the task's `onAbort` — as well as every
still-pending descendant's — is invoked exactly once, before the rejection
is delivered, in child-before-parent order.  Formally: (1) on every abort
the root's `onAbort` is delivered with the rejection, after all collected
descendant labels; (2) for an arbitrary chain of pending descendants ending
in a voluntary abort, the collected labels are exactly each frame's label
once, deepest child first, root last; (3) a checkpoint that observes
`abortRequested` rejects with the requested reason and runs the task's
`onAbort` exactly once. -/
theorem C2_abort_cleanup :
    (∀ (sched : Option (Nat × String)) (task : MolTask) (r : String) (tr : List String),
      RunModel sched task = (.aborted r, tr) →
      ∃ tr', tr = tr' ++ task.onAbort.toList) ∧
    (∀ (frames : List (String × Option String)) (r name : String) (ab : Option String),
      RunModel none { name := name, run := nestChain frames (.abortSelf r), onAbort := ab }
        = (.aborted r, (frames.filterMap Prod.snd).reverse ++ ab.toList)) ∧
    (∀ (reason msg : String) (k : Comp) (task : MolTask), task.run = .update msg k →
      RunModel (some (0, reason)) task = (.aborted reason, task.onAbort.toList)) := by
  refine ⟨?_, ?_, ?_⟩
  · intro sched task r tr h
    unfold RunModel at h
    rcases heval : evalComp sched task.run 0 with ⟨o, t1, tr1⟩
    rw [heval] at h
    cases o with
    | ok v => exact absurd h (by simp)
    | aborted r1 =>
      refine ⟨tr1, ?_⟩
      cases h
      rfl
    | failed e => exact absurd h (by simp)
  · intro frames r name ab
    unfold RunModel
    rw [evalComp_nestChain_abort r frames 0]
  · intro reason msg k task hrun
    unfold RunModel
    rw [hrun]
    simp [evalComp, abortReqAt, schedReason]

theorem C2_abort_cleanup_witness :
    RunModel (some (0, "stop"))
        { name := "t", run := .update "m" (.ret 1), onAbort := some "cleanup" }
      = (.aborted "stop", ["cleanup"]) :=
  C2_abort_cleanup.2.2 "stop" "m" (.ret 1)
    { name := "t", run := .update "m" (.ret 1), onAbort := some "cleanup" } rfl

/-- **C3**: no cancellation without a checkpoint: a task whose `run` never
calls `ctx.update`, `ctx.runChild` or `chunkedSubtask` (which yields
through `ctx.update`) behaves identically under every abort schedule —
`requestAbort` has no effect before completion, and when the computation
resolves with a value, `Run` still resolves with that value. -/
theorem C3_no_checkpoint_no_cancel :
    (∀ (task : MolTask) (sched : Option (Nat × String)),
      checkpointFree task.run = true →
      RunModel sched task = RunModel none task) ∧
    (∀ (task : MolTask) (sched : Option (Nat × String)) (v : Int),
      checkpointFree task.run = true →
      RunModel none task = (.ok v, []) →
      RunModel sched task = (.ok v, [])) := by
  have h1 : ∀ (task : MolTask) (sched : Option (Nat × String)),
      checkpointFree task.run = true →
      RunModel sched task = RunModel none task := by
    intro task sched h
    unfold RunModel
    rw [evalComp_checkpointFree sched task.run h 0]
  exact ⟨h1, fun task sched v h hok => (h1 task sched h).trans hok⟩

theorem C3_no_checkpoint_no_cancel_witness :
    checkpointFree (MolTask.mk "plain" (.delay 5 (.ret 42)) (some "never")).run = true ∧
    RunModel (some (0, "x")) (MolTask.mk "plain" (.delay 5 (.ret 42)) (some "never"))
      = RunModel none (MolTask.mk "plain" (.delay 5 (.ret 42)) (some "never")) :=
  ⟨rfl, C3_no_checkpoint_no_cancel.1
    (MolTask.mk "plain" (.delay 5 (.ret 42)) (some "never")) (some (0, "x")) rfl⟩

/-- **C4**: `Run(task)` resolves with exactly the value `task.run` resolves
with, and awaited `runChild` results compose by ordinary arithmetic: two
children resolving to `a` and `b` summed by the parent give `a + b`;
`test1` resolves with 1 and `testTree()` (three children resolving 1, 2, 3
plus 1) resolves with 7 when no abort is requested. -/
theorem C4_run_resolves :
    (∀ (sched : Option (Nat × String)) (task : MolTask) (v : Int) (t : Nat)
        (tr : List String),
      evalComp sched task.run 0 = (.ok v, t, tr) → RunModel sched task = (.ok v, [])) ∧
    (∀ (a b : Int) (name : String),
      RunModel none { name := name, run := sumComp a b, onAbort := none }
        = (.ok (a + b), [])) ∧
    RunModel none test1Task = (.ok 1, []) ∧
    RunModel none testTreeTask = (.ok 7, []) := by
  refine ⟨?_, ?_, by decide, by decide⟩
  · intro sched task v t tr heval
    have hor := evalComp_aborted_or_nil sched task.run 0
    rw [heval] at hor
    have htr : tr = [] := by
      rcases hor with ⟨r, hr⟩ | hnil
      · exact absurd hr (by simp)
      · exact hnil
    unfold RunModel
    rw [heval, htr]
  · intro a b name
    unfold RunModel
    simp [evalComp, sumComp, abortReqAt]

theorem C4_run_resolves_witness :
    RunModel none test1Task = (.ok 1, []) :=
  C4_run_resolves.1 none test1Task 1 0 [] rfl

/-- **C5**: for every run in which the computation throws an error that is
not the `Aborted` marker, `Run` rejects with that same error unchanged and
no `onAbort` handler (of the task or of any descendant) is invoked: every
`failed` outcome carries an empty cleanup trace, and through an arbitrary
chain of descendants an ordinary failure surfaces unchanged with no
`onAbort` invoked. -/
theorem C5_failure_no_cleanup :
    (∀ (sched : Option (Nat × String)) (task : MolTask) (e : String) (tr : List String),
      RunModel sched task = (.failed e, tr) → tr = []) ∧
    (∀ (frames : List (String × Option String)) (e name : String) (ab : Option String),
      RunModel none { name := name, run := nestChain frames (.fail e), onAbort := ab }
        = (.failed e, [])) := by
  refine ⟨?_, ?_⟩
  · intro sched task e tr h
    exact RunModel_not_aborted h (by intro r hre; cases hre)
  · intro frames e name ab
    unfold RunModel
    rw [evalComp_nestChain_fail e frames 0]

theorem C5_failure_no_cleanup_witness :
    RunModel none { name := "boom", run := .fail "bad input", onAbort := some "never" }
      = (.failed "bad input", []) :=
  C5_failure_no_cleanup.2 [] "bad input" "boom" (some "never")

/-! ## ColorScale lemmas -/

/-- When the clamped parameter is the natural number `m`, `color` hands
`Color.interpolate` the entry `colors[m]` twice with fraction 0 — i.e. it
returns palette color `m`. -/
lemma colorTriple_of_natCast (colors : List Nat) (mn diff value : ℚ) (m : Nat)
    (h : ColorScale.tParam colors mn diff value = (m : ℚ)) :
    ColorScale.colorTriple colors mn diff value
      = (colors.getD m 0, colors.getD m 0, 0) := by
  simp only [ColorScale.colorTriple]
  rw [h]
  simp

/-- **C10** (counterexample): the claim also asserts that with a degenerate
domain `min = max` the scale returns the last palette color for every
`value ≥ max`.  At `min = max = 0`, palette `[0, 100]` and `value = 0` the
premises hold (`diff = 1`, `value ≥ max`), but the clamped parameter is 0,
so `color` interpolates the *first* entry with itself (triple
`(colors[0], colors[0], 0)`), not the last. -/
theorem C10_colorScale_counterexample :
    ColorScale.diffOf 0 0 = 1 ∧
    (0 : ℚ) ≥ 0 ∧
    ColorScale.colorTriple [0, 100] 0 (ColorScale.diffOf 0 0) 0
      ≠ ([0, 100].getD ([0, 100].length - 1) 0,
         [0, 100].getD ([0, 100].length - 1) 0, 0) := by
  have hdiff : ColorScale.diffOf 0 0 = 1 := by simp [ColorScale.diffOf]
  refine ⟨hdiff, le_refl 0, ?_⟩
  rw [hdiff]
  have h0 : ColorScale.colorTriple [0, 100] 0 1 0 = (0, 0, 0) := by
    norm_num [ColorScale.colorTriple, ColorScale.tParam]
  rw [h0]
  intro hcontra
  have : (0 : Nat) = 100 := congrArg Prod.fst hcontra
  exact absurd this (by decide)

/-- **C10** (amended): `ColorScale.create` yields a total color function:
after `setDomain(min, max)` with `min = max` the stored divisor `diff` is
1, so `color` never divides by zero, the interpolation parameter is
clamped to `[0, colors.length - 1]`, and for every numeric value `color`
reads only valid entries of the (possibly reversed) non-empty palette —
returning its first color for `value ≤ min` and its last color for
`value ≥ min + 1` (for `max ≤ value < min + 1` the degenerate domain
interpolates below the top of the palette, which is what the
counterexample exhibits). -/
theorem C10_colorScale_total (rev : Bool) (cs colors : List Nat) (mn value : ℚ)
    (_hcolors : colors = ColorScale.effColors rev cs) (hne : colors ≠ []) :
    ColorScale.diffOf mn mn = 1 ∧
    (0 ≤ ColorScale.tParam colors mn (ColorScale.diffOf mn mn) value ∧
      ColorScale.tParam colors mn (ColorScale.diffOf mn mn) value
        ≤ (colors.length : ℚ) - 1) ∧
    (⌊ColorScale.tParam colors mn (ColorScale.diffOf mn mn) value⌋.toNat
        < colors.length ∧
      ⌈ColorScale.tParam colors mn (ColorScale.diffOf mn mn) value⌉.toNat
        < colors.length) ∧
    (value ≤ mn →
      ColorScale.colorTriple colors mn (ColorScale.diffOf mn mn) value
        = (colors.getD 0 0, colors.getD 0 0, 0)) ∧
    (mn + 1 ≤ value →
      ColorScale.colorTriple colors mn (ColorScale.diffOf mn mn) value
        = (colors.getD (colors.length - 1) 0,
           colors.getD (colors.length - 1) 0, 0)) := by
  have hdiff : ColorScale.diffOf mn mn = 1 := by simp [ColorScale.diffOf]
  have hlen : 1 ≤ colors.length := List.length_pos.mpr hne
  have hlenQ : (1 : ℚ) ≤ (colors.length : ℚ) := by exact_mod_cast hlen
  have hc1 : (0 : ℚ) ≤ (colors.length : ℚ) - 1 := by linarith
  have htle : ∀ w : ℚ, ColorScale.tParam colors mn 1 w ≤ (colors.length : ℚ) - 1 :=
    fun w => min_le_left _ _
  have htge : ∀ w : ℚ, 0 ≤ ColorScale.tParam colors mn 1 w :=
    fun w => le_min hc1 (le_max_left _ _)
  have hcast : ((colors.length : ℚ) - 1) = (((colors.length - 1 : Nat) : ℤ) : ℚ) := by
    push_cast [Nat.cast_sub hlen]
    ring
  refine ⟨hdiff, ?_, ?_, ?_, ?_⟩
  · rw [hdiff]
    exact ⟨htge value, htle value⟩
  · rw [hdiff]
    constructor
    · have hf0 : 0 ≤ ⌊ColorScale.tParam colors mn 1 value⌋ :=
        Int.le_floor.mpr (by exact_mod_cast htge value)
      have hfl : ⌊ColorScale.tParam colors mn 1 value⌋ ≤ ((colors.length - 1 : Nat) : ℤ) := by
        have := Int.floor_mono (le_of_le_of_eq (htle value) hcast)
        rwa [Int.floor_intCast] at this
      omega
    · have hcl : ⌈ColorScale.tParam colors mn 1 value⌉ ≤ ((colors.length - 1 : Nat) : ℤ) :=
        Int.ceil_le.mpr (le_of_le_of_eq (htle value) hcast)
      omega
  · intro hv
    rw [hdiff]
    refine colorTriple_of_natCast colors mn 1 value 0 ?_
    have hsub : value - mn ≤ 0 := by linarith
    have hXle : (value - mn) / 1 * ((colors.length : ℚ) - 1) ≤ 0 := by
      rw [div_one]
      exact mul_nonpos_iff.mpr (Or.inr ⟨hsub, hc1⟩)
    unfold ColorScale.tParam
    rw [max_eq_left hXle, min_eq_right hc1]
    simp
  · intro hv
    rw [hdiff]
    refine colorTriple_of_natCast colors mn 1 value (colors.length - 1) ?_
    have hge1 : 1 ≤ value - mn := by linarith
    have hXc : (colors.length : ℚ) - 1 ≤ (value - mn) * ((colors.length : ℚ) - 1) :=
      le_mul_of_one_le_left hc1 hge1
    unfold ColorScale.tParam
    rw [div_one, max_eq_right (le_trans hc1 hXc), min_eq_left hXc]
    rw [hcast]
    push_cast
    ring

theorem C10_colorScale_total_witness :
    ColorScale.colorTriple [0, 100] 0 (ColorScale.diffOf 0 0) (-1)
      = ([0, 100].getD 0 0, [0, 100].getD 0 0, 0) :=
  (C10_colorScale_total false [0, 100] [0, 100] 0 (-1) rfl (by decide)).2.2.2.1
    (by norm_num)
